import Mathlib

/-!
Verification of the gradient-contraction benchmark
(src/benchmarks/multivariate_convolve.py), of the univariate MCEM driver
(src/alphacsc/learn_d_z_mcem.py), and of the loss-and-gradient engine of
the specification, exercised by
src/multicsc/tests/test_loss_and_gradient.py.

Tensors are embedded as total functions from indices to rationals; array
shapes become explicit size parameters, and every sum the source computes
over an array axis becomes a finite sum over a range of that size.  Exact
rational arithmetic stands in for floating-point arithmetic, so agreement
within floating tolerance is rendered as exact equality.
-/

/-- A rank-2 tensor: a numpy array of two indices. -/
abbrev Tens2 : Type := ℕ → ℕ → ℚ

/-- A rank-3 tensor: a numpy array of three indices. -/
abbrev Tens3 : Type := ℕ → ℕ → ℕ → ℚ

/-! ### The gradient-contraction benchmark

Embeddings of the six functions of src/benchmarks/multivariate_convolve.py.
All take `ZtZ` of shape (K, K, 2*T - 1) and a dictionary of shape
(K, P, T) (or its rank-1 factorization `uv` of shape (K, P + T)) and
return the gradient contribution `G` of shape (K, P, T). -/

/-- Valid-mode convolution of a sequence `a` of length `2*T - 1` with a
kernel `b` of length `T`: entry `t` (for `0 ≤ t < T`) is the inner
product of the slice `a[t : t+T]` with the reversal of `b`.  This is the
value of both library routines used by the benchmark in valid mode. -/
def convolveValid (T : ℕ) (a b : ℕ → ℚ) (t : ℕ) : ℚ :=
  ∑ m ∈ Finset.range T, a (t + m) * b (T - 1 - m)

/-- Full-mode linear convolution of `a` of length `la` with `b` of
length `lb`, at output index `n`. -/
def convolveFull (la lb : ℕ) (a b : ℕ → ℚ) (n : ℕ) : ℚ :=
  ∑ j ∈ Finset.range la, if j ≤ n ∧ n - j < lb then a j * b (n - j) else 0

/-- The benchmark's reference implementation: `G[k0, p]` accumulates,
over `k1`, the valid-mode convolution of `ZtZ[k0, k1]` with `D[k1, p]`. -/
def numpy_convolve (K P T : ℕ) (ZtZ : Tens3) (D : Tens3) : Tens3 :=
  fun k0 p t =>
    ∑ k1 ∈ Finset.range K, convolveValid T (ZtZ k0 k1) (D k1 p) t

/-- The FFT-based variant: in exact arithmetic an FFT convolution in
valid mode is the full convolution restricted to the valid window, entry
`t` of the valid output being entry `t + (T - 1)` of the full output. -/
def scipy_fftconvolve (K P T : ℕ) (ZtZ : Tens3) (D : Tens3) : Tens3 :=
  fun k0 p t =>
    ∑ k1 ∈ Finset.range K,
      convolveFull (2 * T - 1) T (ZtZ k0 k1) (D k1 p) (t + (T - 1))

/-- Reversal of a length-`T` axis, as in the slice `[::-1]`. -/
def revT (T : ℕ) (b : ℕ → ℚ) : ℕ → ℚ := fun m => b (T - 1 - m)

/-- The explicit-loop variant: for every output time `t`, the inner
product of the slice `ZtZ[k0, k1, t : t+T]` with `D[k1, p, ::-1]`,
accumulated over `k1`. -/
def dot_and_numba (K P T : ℕ) (ZtZ : Tens3) (D : Tens3) : Tens3 :=
  fun k0 p t =>
    ∑ k1 ∈ Finset.range K,
      ∑ m ∈ Finset.range T, ZtZ k0 k1 (t + m) * revT T (D k1 p) m

/-- The whole-plane variant: for every output time `t`, the sum of the
elementwise product of the plane `ZtZ[k0, :, t : t+T]` with
`D[:, p, ::-1]`, over the (atom, time) index pairs. -/
def sum_and_numba (K P T : ℕ) (ZtZ : Tens3) (D : Tens3) : Tens3 :=
  fun k0 p t =>
    ∑ km ∈ Finset.range K ×ˢ Finset.range T,
      ZtZ k0 km.1 (t + km.2) * revT T (D km.1 p) km.2

/-- The tensordot variant: reverse the time axis of `D` once, then for
every output time `t` contract `ZtZ[:, :, t : t+T]` with the reversed
dictionary over the (atom, time) axes. -/
def tensordot (K P T : ℕ) (ZtZ : Tens3) (D : Tens3) : Tens3 :=
  let Drev : Tens3 := fun k p m => D k p (T - 1 - m)
  fun k0 p t =>
    ∑ km ∈ Finset.range K ×ˢ Finset.range T,
      ZtZ k0 km.1 (t + km.2) * Drev km.1 p km.2

/-- The rank-1 path.  The atom length is recovered from the third
dimension `S` of `ZtZ` as `(S + 1) / 2` and the channel count from the
width `W` of `uv`; `u` is the first block of columns of `uv` and `v` the
remaining block.  Each term convolves `ZtZ[k0, k1]` with `v[k1]` in
valid mode and scales the result by `u[k1, p]`. -/
def numpy_convolve_uv (K S W : ℕ) (ZtZ : Tens3) (uv : Tens2) : Tens3 :=
  let T := (S + 1) / 2
  let P := W - T
  fun k0 p t =>
    ∑ k1 ∈ Finset.range K,
      convolveValid T (ZtZ k0 k1) (fun m => uv k1 (P + m)) t * uv k1 p

/-- Horizontal stacking of the channel patterns `u` (width `P`) with the
temporal patterns `v`, as in the benchmark's equality test. -/
def hstack (P : ℕ) (u v : Tens2) : Tens2 :=
  fun k j => if j < P then u k j else v k (j - P)

/-- The rank-1 dictionary `D[k] = outer(u[k], v[k])`. -/
def outerD (u v : Tens2) : Tens3 := fun k p t => u k p * v k t

/-- Within the valid window, the slice of the full convolution taken by
the FFT-based variant coincides with the direct valid-mode value. -/
lemma convolveFull_eq_valid (T : ℕ) (a b : ℕ → ℚ) (t : ℕ)
    (hT : 0 < T) (ht : t < T) :
    convolveFull (2 * T - 1) T a b (t + (T - 1)) = convolveValid T a b t := by
  unfold convolveFull convolveValid
  have h1 : ∀ j ∈ Finset.range (2 * T - 1),
      (if j ≤ t + (T - 1) ∧ t + (T - 1) - j < T
        then a j * b (t + (T - 1) - j) else 0)
      = (if j ∈ Finset.Ico t (t + T)
          then a j * b (t + (T - 1) - j) else 0) := by
    intro j _
    have hiff : (j ≤ t + (T - 1) ∧ t + (T - 1) - j < T) ↔
        (j ∈ Finset.Ico t (t + T)) := by
      rw [Finset.mem_Ico]; omega
    exact if_congr hiff rfl rfl
  rw [Finset.sum_congr rfl h1, Finset.sum_ite_mem]
  have h2 : Finset.range (2 * T - 1) ∩ Finset.Ico t (t + T)
      = Finset.Ico t (t + T) := by
    apply Finset.inter_eq_right.mpr
    intro j hj
    rw [Finset.mem_Ico] at hj
    rw [Finset.mem_range]
    omega
  rw [h2, Finset.sum_Ico_eq_sum_range]
  have h3 : t + T - t = T := by omega
  rw [h3]
  apply Finset.sum_congr rfl
  intro m hm
  rw [Finset.mem_range] at hm
  have h4 : t + (T - 1) - (t + m) = T - 1 - m := by omega
  rw [h4]

/-- C1: for every ZtZ of shape (K, K, 2T-1) and every rank-1 dictionary
D = outer(u, v) of shape (K, P, T), the six gradient-contraction
implementations agree; in particular the factorized path on the
horizontally stacked uv equals the full-rank reference path. -/
theorem claim_C1 (K P T : ℕ) (ZtZ : Tens3) (u v : Tens2) (k0 p t : ℕ)
    (hT : 0 < T) (hp : p < P) (ht : t < T) :
    scipy_fftconvolve K P T ZtZ (outerD u v) k0 p t
        = numpy_convolve K P T ZtZ (outerD u v) k0 p t ∧
    dot_and_numba K P T ZtZ (outerD u v) k0 p t
        = numpy_convolve K P T ZtZ (outerD u v) k0 p t ∧
    sum_and_numba K P T ZtZ (outerD u v) k0 p t
        = numpy_convolve K P T ZtZ (outerD u v) k0 p t ∧
    tensordot K P T ZtZ (outerD u v) k0 p t
        = numpy_convolve K P T ZtZ (outerD u v) k0 p t ∧
    numpy_convolve_uv K (2 * T - 1) (P + T) ZtZ (hstack P u v) k0 p t
        = numpy_convolve K P T ZtZ (outerD u v) k0 p t := by
  refine ⟨?_, ?_, ?_, ?_, ?_⟩
  · unfold scipy_fftconvolve numpy_convolve
    exact Finset.sum_congr rfl fun k1 _ =>
      convolveFull_eq_valid T (ZtZ k0 k1) (outerD u v k1 p) t hT ht
  · simp only [dot_and_numba, numpy_convolve, convolveValid, revT]
  · simp only [sum_and_numba, numpy_convolve, convolveValid, revT]
    rw [Finset.sum_product]
  · simp only [tensordot, numpy_convolve, convolveValid]
    rw [Finset.sum_product]
  · simp only [numpy_convolve_uv, numpy_convolve, convolveValid]
    have hTd : (2 * T - 1 + 1) / 2 = T := by omega
    have hP2 : P + T - T = P := by omega
    rw [hTd, hP2]
    apply Finset.sum_congr rfl
    intro k1 _
    have hu : hstack P u v k1 p = u k1 p := by
      unfold hstack; rw [if_pos hp]
    have hv : ∀ m : ℕ, hstack P u v k1 (P + m) = v k1 m := by
      intro m
      unfold hstack
      rw [if_neg (by omega), Nat.add_sub_cancel_left]
    rw [hu, Finset.sum_mul]
    apply Finset.sum_congr rfl
    intro m _
    rw [hv (T - 1 - m)]
    unfold outerD
    ring

/-- Concrete tensors used to instantiate the hypotheses of claim_C1. -/
def wZtZ : Tens3 := fun k0 k1 s => (k0 : ℚ) + 2 * k1 + s

/-- Concrete channel patterns used to instantiate claim_C1. -/
def wU : Tens2 := fun k p => (k : ℚ) + p + 1

/-- Concrete temporal patterns used to instantiate claim_C1. -/
def wV : Tens2 := fun k t => (k : ℚ) - t

/-- Witness for claim_C1 at K = 2, P = 1, T = 2, index (0, 0, 1). -/
theorem claim_C1_witness :
    (0 : ℕ) < 2 ∧ (0 : ℕ) < 1 ∧ (1 : ℕ) < 2 ∧
    (scipy_fftconvolve 2 1 2 wZtZ (outerD wU wV) 0 0 1
        = numpy_convolve 2 1 2 wZtZ (outerD wU wV) 0 0 1 ∧
      dot_and_numba 2 1 2 wZtZ (outerD wU wV) 0 0 1
        = numpy_convolve 2 1 2 wZtZ (outerD wU wV) 0 0 1 ∧
      sum_and_numba 2 1 2 wZtZ (outerD wU wV) 0 0 1
        = numpy_convolve 2 1 2 wZtZ (outerD wU wV) 0 0 1 ∧
      tensordot 2 1 2 wZtZ (outerD wU wV) 0 0 1
        = numpy_convolve 2 1 2 wZtZ (outerD wU wV) 0 0 1 ∧
      numpy_convolve_uv 2 (2 * 2 - 1) (1 + 2) wZtZ (hstack 1 wU wV) 0 0 1
        = numpy_convolve 2 1 2 wZtZ (outerD wU wV) 0 0 1) :=
  ⟨by decide, by decide, by decide,
    claim_C1 2 1 2 wZtZ wU wV 0 0 1 (by decide) (by decide) (by decide)⟩

/-- C8: in the degenerate case of an atom length of 1, the reference
contraction reduces to elementwise scaling: the single time entry of
G[k0, p] is the sum over k1 of ZtZ[k0, k1, 0] * D[k1, p, 0]. -/
theorem claim_C8 (K P : ℕ) (ZtZ : Tens3) (D : Tens3) (k0 p : ℕ) :
    numpy_convolve K P 1 ZtZ D k0 p 0
      = ∑ k1 ∈ Finset.range K, ZtZ k0 k1 0 * D k1 p 0 := by
  simp [numpy_convolve, convolveValid]

/-! ### The loss-and-gradient engine

The module multicsc/loss_and_gradient.py and the helpers in
multicsc/utils are not under src/; only their test,
src/multicsc/tests/test_loss_and_gradient.py, is.  The definitions below
are therefore modelled from the specification (sections 4.1, 4.2 and the
design notes): every loss is a discrepancy between the observed signal
and the reconstruction, the factorized parameterization computes the
same quantities through the rank-1 dictionary, and the gradients follow
the chain rule through the reconstruction.  The soft-DTW discrepancy and
its gradient are kept opaque (arbitrary functions of the observed
signal, the reconstruction and gamma), which is all the specification
fixes about them. -/

/-- Modelled from the spec: multicsc.utils.get_D is not under src/.
D[k] = outer(u[k], v[k]) with u = uv[:, :n_channels] and
v = uv[:, n_channels:]. -/
def get_D (uv : Tens2) (n_channels : ℕ) : Tens3 :=
  fun k p t => uv k p * uv k (n_channels + t)

/-- Modelled from the spec: multicsc.utils.construct_X_multi is not
under src/.  Per trial and channel, the reconstruction sums over atoms
the full 1-D convolution of the activation with the atom. -/
def construct_X_multi (Z : Tens3) (D : Tens3) (K T : ℕ) : Tens3 :=
  fun i p t =>
    ∑ k ∈ Finset.range K, ∑ τ ∈ Finset.range T,
      if τ ≤ t then Z i k (t - τ) * D k p τ else 0

/-- Modelled from the spec: the factorized reconstruction path
convolves the activation with the temporal pattern v and scales the
result by the channel pattern u, per atom. -/
def construct_X_multi_uv (Z : Tens3) (uv : Tens2) (K T P : ℕ) : Tens3 :=
  fun i p t =>
    ∑ k ∈ Finset.range K,
      uv k p * ∑ τ ∈ Finset.range T,
        if τ ≤ t then Z i k (t - τ) * uv k (P + τ) else 0

/-- The single-trial reconstruction used by the per-trial code path. -/
def construct_x (z : Tens2) (D : Tens3) (K T : ℕ) : Tens2 :=
  fun p t =>
    ∑ k ∈ Finset.range K, ∑ τ ∈ Finset.range T,
      if τ ≤ t then z k (t - τ) * D k p τ else 0

/-- The single-trial factorized reconstruction. -/
def construct_x_uv (z : Tens2) (uv : Tens2) (K T P : ℕ) : Tens2 :=
  fun p t =>
    ∑ k ∈ Finset.range K,
      uv k p * ∑ τ ∈ Finset.range T,
        if τ ≤ t then z k (t - τ) * uv k (P + τ) else 0

/-- The three supported loss identifiers. -/
inductive LossKind : Type
  | l2 : LossKind
  | dtw : LossKind
  | whitening : LossKind

/-- The loss configuration bundle: the smoothing parameter of the
soft-DTW loss and the fitted per-channel autoregressive filter of the
whitening loss. -/
structure LossParams : Type where
  gamma : ℚ
  ar : Tens2
  arOrder : ℕ

/-- Sum of squares over (trials, channels, times). -/
def sumSq (nI nP nT : ℕ) (Y : Tens3) : ℚ :=
  ∑ i ∈ Finset.range nI, ∑ p ∈ Finset.range nP, ∑ t ∈ Finset.range nT,
    Y i p t ^ 2

/-- Elementwise residual between the observed signal and another
signal. -/
def residualT (X Y : Tens3) : Tens3 := fun i p t => X i p t - Y i p t

/-- Modelled from the spec: the per-channel causal autoregressive
whitening filter. -/
def whiten (ar : Tens2) (ord : ℕ) (Y : Tens3) : Tens3 :=
  fun i p t =>
    ∑ j ∈ Finset.range (ord + 1), if j ≤ t then ar p j * Y i p (t - j) else 0

/-- Modelled from the spec: the objective of each loss as a function of
the observed signal and the reconstruction.  The soft-DTW discrepancy
dtwDisc is opaque. -/
def objectiveFromXhat (loss : LossKind) (dtwDisc : Tens3 → Tens3 → ℚ → ℚ)
    (lp : LossParams) (nI nP nT : ℕ) (X Xhat : Tens3) : ℚ :=
  match loss with
  | .l2 => sumSq nI nP nT (residualT X Xhat)
  | .dtw => dtwDisc X Xhat lp.gamma
  | .whitening => sumSq nI nP nT (whiten lp.ar lp.arOrder (residualT X Xhat))

/-- Modelled from the spec: the full-rank objective computes the
reconstruction from D and evaluates the selected loss on it. -/
def compute_X_and_objective_multi (loss : LossKind)
    (dtwDisc : Tens3 → Tens3 → ℚ → ℚ) (lp : LossParams)
    (nI nP nT K T : ℕ) (X Z : Tens3) (D : Tens3) : ℚ :=
  objectiveFromXhat loss dtwDisc lp nI nP nT X (construct_X_multi Z D K T)

/-- Modelled from the spec: the factorized objective computes the
reconstruction from uv and evaluates the same loss on it. -/
def compute_X_and_objective_multi_uv (loss : LossKind)
    (dtwDisc : Tens3 → Tens3 → ℚ → ℚ) (lp : LossParams)
    (nI nP nT K T : ℕ) (X Z : Tens3) (uv : Tens2) : ℚ :=
  objectiveFromXhat loss dtwDisc lp nI nP nT X
    (construct_X_multi_uv Z uv K T nP)

/-- Adjoint of the whitening filter, restricted to the signal length. -/
def whitenAdj (ar : Tens2) (ord nT : ℕ) (G : Tens3) : Tens3 :=
  fun i p t =>
    ∑ j ∈ Finset.range (ord + 1),
      if t + j < nT then ar p j * G i p (t + j) else 0

/-- Modelled from the spec: the gradient of each loss with respect to
the reconstruction.  The soft-DTW gradient dtwGrad is opaque. -/
def gradLossFromXhat (loss : LossKind) (dtwGrad : Tens3 → Tens3 → ℚ → Tens3)
    (lp : LossParams) (nT : ℕ) (X Xhat : Tens3) : Tens3 :=
  match loss with
  | .l2 => fun i p t => 2 * (Xhat i p t - X i p t)
  | .dtw => dtwGrad X Xhat lp.gamma
  | .whitening =>
      whitenAdj lp.ar lp.arOrder nT
        (fun i p t => 2 * (whiten lp.ar lp.arOrder (residualT X Xhat) i p t))

/-- Modelled from the spec: the gradient of the objective with respect
to the full-rank dictionary, by the chain rule through the
reconstruction: correlate the activations with the gradient with
respect to the reconstruction. -/
def gradient_d (loss : LossKind) (dtwGrad : Tens3 → Tens3 → ℚ → Tens3)
    (lp : LossParams) (nI nT V K T : ℕ) (X Z : Tens3) (D : Tens3) : Tens3 :=
  let g := gradLossFromXhat loss dtwGrad lp nT X (construct_X_multi Z D K T)
  fun k p τ =>
    ∑ i ∈ Finset.range nI, ∑ t ∈ Finset.range V, Z i k t * g i p (t + τ)

/-- Modelled from the spec: the channel-pattern block of the factorized
gradient, computed along the factorized path and contracted with the
temporal patterns. -/
def gradient_uv_u (loss : LossKind) (dtwGrad : Tens3 → Tens3 → ℚ → Tens3)
    (lp : LossParams) (nI nT V K T P : ℕ) (X Z : Tens3) (uv : Tens2) :
    Tens2 :=
  let g := gradLossFromXhat loss dtwGrad lp nT X
    (construct_X_multi_uv Z uv K T P)
  fun k p =>
    ∑ τ ∈ Finset.range T,
      (∑ i ∈ Finset.range nI, ∑ t ∈ Finset.range V, Z i k t * g i p (t + τ))
        * uv k (P + τ)

/-- Modelled from the spec: the temporal-pattern block of the factorized
gradient, computed along the factorized path and contracted with the
channel patterns. -/
def gradient_uv_v (loss : LossKind) (dtwGrad : Tens3 → Tens3 → ℚ → Tens3)
    (lp : LossParams) (nI nT V K T P : ℕ) (X Z : Tens3) (uv : Tens2) :
    Tens2 :=
  let g := gradLossFromXhat loss dtwGrad lp nT X
    (construct_X_multi_uv Z uv K T P)
  fun k τ =>
    ∑ p ∈ Finset.range P,
      uv k p *
        ∑ i ∈ Finset.range nI, ∑ t ∈ Finset.range V, Z i k t * g i p (t + τ)

/-- Single-trial whitening filter. -/
def whitenS (ar : Tens2) (ord : ℕ) (y : Tens2) : Tens2 :=
  fun p t =>
    ∑ j ∈ Finset.range (ord + 1), if j ≤ t then ar p j * y p (t - j) else 0

/-- Single-trial adjoint of the whitening filter. -/
def whitenAdjS (ar : Tens2) (ord nT : ℕ) (g : Tens2) : Tens2 :=
  fun p t =>
    ∑ j ∈ Finset.range (ord + 1),
      if t + j < nT then ar p j * g p (t + j) else 0

/-- Modelled from the spec: the single-trial gradient of each loss with
respect to the reconstruction, with an opaque soft-DTW gradient. -/
def gradLossFromXhatS (loss : LossKind) (dtwGradS : Tens2 → Tens2 → ℚ → Tens2)
    (lp : LossParams) (nT : ℕ) (x xhat : Tens2) : Tens2 :=
  match loss with
  | .l2 => fun p t => 2 * (xhat p t - x p t)
  | .dtw => dtwGradS x xhat lp.gamma
  | .whitening =>
      whitenAdjS lp.ar lp.arOrder nT
        (fun p t =>
          2 * whitenS lp.ar lp.arOrder (fun p' t' => x p' t' - xhat p' t') p t)

/-- Modelled from the spec: the gradient of the single-trial objective
with respect to the activation, by the chain rule through the
reconstruction, for the full-rank dictionary. -/
def gradient_zi (loss : LossKind) (dtwGradS : Tens2 → Tens2 → ℚ → Tens2)
    (lp : LossParams) (nT K P T : ℕ) (x z : Tens2) (D : Tens3) : Tens2 :=
  let g := gradLossFromXhatS loss dtwGradS lp nT x (construct_x z D K T)
  fun k t =>
    ∑ p ∈ Finset.range P, ∑ τ ∈ Finset.range T, g p (t + τ) * D k p τ

/-- Modelled from the spec: the factorized-path gradient of the
single-trial objective with respect to the activation. -/
def gradient_zi_uv (loss : LossKind) (dtwGradS : Tens2 → Tens2 → ℚ → Tens2)
    (lp : LossParams) (nT K P T : ℕ) (x z : Tens2) (uv : Tens2) : Tens2 :=
  let g := gradLossFromXhatS loss dtwGradS lp nT x (construct_x_uv z uv K T P)
  fun k t =>
    ∑ τ ∈ Finset.range T,
      (∑ p ∈ Finset.range P, uv k p * g p (t + τ)) * uv k (P + τ)

/-- The two reconstruction paths agree once the factorized dictionary is
expanded to its full-rank form. -/
lemma construct_X_multi_uv_eq (Z : Tens3) (uv : Tens2) (K T P : ℕ) :
    construct_X_multi_uv Z uv K T P = construct_X_multi Z (get_D uv P) K T := by
  funext i p t
  unfold construct_X_multi_uv construct_X_multi get_D
  apply Finset.sum_congr rfl
  intro k _
  rw [Finset.mul_sum]
  apply Finset.sum_congr rfl
  intro τ _
  by_cases h : τ ≤ t
  · rw [if_pos h, if_pos h]; ring
  · rw [if_neg h, if_neg h, mul_zero]

/-- Single-trial version of the reconstruction agreement. -/
lemma construct_x_uv_eq (z : Tens2) (uv : Tens2) (K T P : ℕ) :
    construct_x_uv z uv K T P = construct_x z (get_D uv P) K T := by
  funext p t
  unfold construct_x_uv construct_x get_D
  apply Finset.sum_congr rfl
  intro k _
  rw [Finset.mul_sum]
  apply Finset.sum_congr rfl
  intro τ _
  by_cases h : τ ≤ t
  · rw [if_pos h, if_pos h]; ring
  · rw [if_neg h, if_neg h, mul_zero]

/-- C2: for every loss among l2, dtw and whitening, the objective, the
reconstruction and the activation gradient computed from the factorized
dictionary uv equal the ones computed from the expanded full-rank
dictionary D = get_D uv, and the two blocks of the factorized dictionary
gradient are the chain-rule contractions of the full-rank dictionary
gradient with the temporal and channel patterns. -/
theorem claim_C2 (loss : LossKind) (dtwDisc : Tens3 → Tens3 → ℚ → ℚ)
    (dtwGrad : Tens3 → Tens3 → ℚ → Tens3)
    (dtwGradS : Tens2 → Tens2 → ℚ → Tens2) (lp : LossParams)
    (nI nP nT V K T : ℕ) (X Z : Tens3) (x z : Tens2) (uv : Tens2) :
    (∀ i p t, construct_X_multi_uv Z uv K T nP i p t
        = construct_X_multi Z (get_D uv nP) K T i p t) ∧
    compute_X_and_objective_multi_uv loss dtwDisc lp nI nP nT K T X Z uv
      = compute_X_and_objective_multi loss dtwDisc lp nI nP nT K T X Z
          (get_D uv nP) ∧
    (∀ k t, gradient_zi_uv loss dtwGradS lp nT K nP T x z uv k t
        = gradient_zi loss dtwGradS lp nT K nP T x z (get_D uv nP) k t) ∧
    (∀ k p, gradient_uv_u loss dtwGrad lp nI nT V K T nP X Z uv k p
        = ∑ τ ∈ Finset.range T,
            gradient_d loss dtwGrad lp nI nT V K T X Z (get_D uv nP) k p τ
              * uv k (nP + τ)) ∧
    (∀ k τ, gradient_uv_v loss dtwGrad lp nI nT V K T nP X Z uv k τ
        = ∑ p ∈ Finset.range nP,
            uv k p *
              gradient_d loss dtwGrad lp nI nT V K T X Z (get_D uv nP) k p τ) := by
  refine ⟨?_, ?_, ?_, ?_, ?_⟩
  · intro i p t
    rw [construct_X_multi_uv_eq]
  · unfold compute_X_and_objective_multi_uv compute_X_and_objective_multi
    rw [construct_X_multi_uv_eq]
  · intro k t
    unfold gradient_zi_uv gradient_zi
    rw [construct_x_uv_eq]
    set g := gradLossFromXhatS loss dtwGradS lp nT x
      (construct_x z (get_D uv nP) K T) with hg
    rw [Finset.sum_comm]
    apply Finset.sum_congr rfl
    intro p _
    rw [Finset.sum_mul]
    apply Finset.sum_congr rfl
    intro τ _
    unfold get_D
    ring
  · intro k p
    unfold gradient_uv_u gradient_d
    rw [construct_X_multi_uv_eq]
  · intro k τ
    unfold gradient_uv_v gradient_d
    rw [construct_X_multi_uv_eq]

/-! ### The MCEM driver

Embedding of learn_d_z_weighted from src/alphacsc/learn_d_z_mcem.py.
The collaborators it imports (learn_d_z, construct_X, estimate_phi_mh,
check_random_state) are not under src/, so they are modelled from the
spec as opaque functions bundled in a structure, with the mutable random
state made an explicit value threaded through every call.  The arguments
of learn_d_z that the driver forwards unchanged on every iteration
(n_atoms, n_times_atom, func_d, the solver names and keyword bundles,
verbosity, callback) are absorbed into the opaque collaborator; the
arguments that vary across the loop (the random state, the warm-start
dictionary and the sample weights) and the data-dependent ones (X, reg,
n_iter_optim) are explicit. -/

/-- Sample mean of trial i of X over the time axis. -/
def trialMean (X : Tens2) (n_times i : ℕ) : ℚ :=
  (∑ t ∈ Finset.range n_times, X i t) / (n_times : ℚ)

/-- Exact value of np.std(X, axis=1)[i] ** 2: the population variance of
trial i of X over the time axis. -/
def trialStdSq (X : Tens2) (n_times i : ℕ) : ℚ :=
  (∑ t ∈ Finset.range n_times, (X i t - trialMean X n_times i) ^ 2)
    / (n_times : ℚ)

/-- Reciprocal with the IEEE behaviour made explicit: the result is none
exactly when the divisor is zero, modelling the non-finite float that
1/0 produces. -/
def finiteRecip (q : ℚ) : Option ℚ := if q = 0 then none else some q⁻¹

/-- The initialization of (phi, tau) in learn_d_z_weighted: with
init_tau, phi is the per-trial empirical variance tiled identically
across all timepoints and tau = 1 / phi elementwise; otherwise phi = 2
and tau = 0.5 everywhere. -/
def initPhiTau (init_tau : Bool) (X : Tens2) (n_times : ℕ) :
    Tens2 × Tens2 :=
  if init_tau then
    let phi : Tens2 := fun i _t => trialStdSq X n_times i
    (phi, fun i t => 1 / phi i t)
  else
    ((fun _i _t => 2), (fun _i _t => 1 / 2))

/-- Modelled from the spec: the collaborators of the MCEM driver.
learnDZ takes the random state, the data X, the regularization, the
iteration budget of the Maximization step, the warm-start dictionary and
the per-sample weights, and returns the new random state, the objective
trace, the timing trace, the dictionary and the activations.
constructX rebuilds the signal from activations and dictionary.
estimatePhiMh takes the random state, X, the reconstruction, alpha, the
current phi and the chain and burn-in lengths, and returns the new
random state, phi, tau and the log-likelihood trace. -/
structure MCEMCollab (R : Type) : Type where
  learnDZ : R → Tens2 → ℚ → ℕ → Option Tens2 → Tens2 →
    R × List ℚ × List ℚ × Tens2 × Tens3
  constructX : Tens3 → Tens2 → Tens2
  estimatePhiMh : R → Tens2 → Tens2 → ℚ → Tens2 → ℕ → ℕ →
    R × Tens2 × Tens2 × List ℚ

/-- The state carried across global MCEM iterations.  z_hat is an
Option because the Python variable z_hat is only bound inside the loop
body. -/
structure MCEMState (R : Type) : Type where
  rng : R
  d_hat : Option Tens2
  z_hat : Option Tens3
  phi : Tens2
  tau : Tens2

/-- One global MCEM iteration: the Maximization step runs the weighted
alternating loop with sample weights 2 * tau and the current dictionary
as warm start, then the Expectation step re-estimates phi and tau by
Metropolis-Hastings from X and the reconstruction of the new codes and
dictionary. -/
def mcemStep {R : Type} (c : MCEMCollab R) (X : Tens2) (reg alpha : ℚ)
    (n_iter_optim n_iter_mcmc n_burnin_mcmc : ℕ) (s : MCEMState R) :
    MCEMState R :=
  let r := c.learnDZ s.rng X reg n_iter_optim s.d_hat
    (fun i t => 2 * s.tau i t)
  let d := r.2.2.2.1
  let z := r.2.2.2.2
  let X_hat := c.constructX z d
  let e := c.estimatePhiMh r.1 X X_hat alpha s.phi n_iter_mcmc n_burnin_mcmc
  ⟨e.1, some d, some z, e.2.1, e.2.2.1⟩

/-- Embedding of learn_d_z_weighted: initialize (phi, tau), run
n_iter_global MCEM cycles, and return the final dictionary, codes and
tau.  A run with n_iter_global = 0 reaches the return statement with the
name z_hat unbound, which raises; this is modelled by the none result. -/
def learn_d_z_weighted {R : Type} (c : MCEMCollab R) (X : Tens2)
    (n_times : ℕ) (reg alpha : ℚ) (n_iter_global : ℕ) (init_tau : Bool)
    (n_iter_optim n_iter_mcmc n_burnin_mcmc : ℕ) (rng : R)
    (ds_init : Option Tens2) : Option (Option Tens2 × Tens3 × Tens2) :=
  let pt := initPhiTau init_tau X n_times
  let s0 : MCEMState R := ⟨rng, ds_init, none, pt.1, pt.2⟩
  let s := (List.range n_iter_global).foldl
    (fun s _ii => mcemStep c X reg alpha n_iter_optim n_iter_mcmc
      n_burnin_mcmc s) s0
  match s.z_hat with
  | some z => some (s.d_hat, z, s.tau)
  | none => none

/-- A fold of a constant step function over an index list is an
iterate. -/
lemma foldl_range_eq_iterate {α : Type} (f : α → α) :
    ∀ (n : ℕ) (a : α), (List.range n).foldl (fun s _ => f s) a = f^[n] a := by
  intro n
  induction n with
  | zero => intro a; rfl
  | succ m ih =>
      intro a
      rw [List.range_succ, List.foldl_append, ih,
        Function.iterate_succ_apply']
      rfl

/-- The driver is the n_iter_global-fold iterate of the MCEM cycle
applied to the initial state, followed by the final projection. -/
lemma learn_run_eq {R : Type} (c : MCEMCollab R) (X : Tens2)
    (n_times : ℕ) (reg alpha : ℚ) (n : ℕ) (init_tau : Bool)
    (nO nM nB : ℕ) (rng : R) (ds : Option Tens2) :
    learn_d_z_weighted c X n_times reg alpha n init_tau nO nM nB rng ds
      = (let s := (mcemStep c X reg alpha nO nM nB)^[n]
            ⟨rng, ds, none, (initPhiTau init_tau X n_times).1,
              (initPhiTau init_tau X n_times).2⟩
         match s.z_hat with
         | some z => some (s.d_hat, z, s.tau)
         | none => none) := by
  unfold learn_d_z_weighted
  simp only [foldl_range_eq_iterate (mcemStep c X reg alpha nO nM nB) n]

/-- After at least one global iteration the driver returns normally. -/
lemma learn_d_z_weighted_isSome {R : Type} (c : MCEMCollab R) (X : Tens2)
    (n_times : ℕ) (reg alpha : ℚ) (n : ℕ) (init_tau : Bool)
    (nO nM nB : ℕ) (rng : R) (ds : Option Tens2) (h : 1 ≤ n) :
    (learn_d_z_weighted c X n_times reg alpha n init_tau nO nM nB
        rng ds).isSome = true := by
  obtain ⟨m, rfl⟩ : ∃ m, n = m + 1 := ⟨n - 1, by omega⟩
  rw [learn_run_eq, Function.iterate_succ_apply']
  rfl

/-- C5: with init_tau set, phi is initialized to the per-trial
empirical variance (the squared standard deviation over the time axis),
tiled identically across all timepoints, and tau to its elementwise
reciprocal. -/
theorem claim_C5 (X : Tens2) (n_times i t u : ℕ) :
    (initPhiTau true X n_times).1 i t = trialStdSq X n_times i ∧
    (initPhiTau true X n_times).1 i t = (initPhiTau true X n_times).1 i u ∧
    (initPhiTau true X n_times).2 i t
      = 1 / trialStdSq X n_times i := by
  refine ⟨rfl, rfl, rfl⟩

/-- C3: with init_tau unset, phi is initialized to 2 and tau to 0.5
everywhere, the sample weights 2 * tau are uniformly 1, and the first
Maximization step is exactly the unweighted alternating learning loop:
the driver's first global iteration calls the alternating loop with the
uniform weight function 1 (the unweighted case of the spec). -/
theorem claim_C3 {R : Type} (c : MCEMCollab R) (X : Tens2)
    (n_times : ℕ) (reg alpha : ℚ) (nO nM nB : ℕ) (rng : R)
    (ds : Option Tens2) :
    (∀ i t, (initPhiTau false X n_times).1 i t = 2) ∧
    (∀ i t, (initPhiTau false X n_times).2 i t = 1 / 2) ∧
    (∀ i t, 2 * (initPhiTau false X n_times).2 i t = 1) ∧
    learn_d_z_weighted c X n_times reg alpha 1 false nO nM nB rng ds
      = (let r := c.learnDZ rng X reg nO ds (fun _i _t => 1)
         let e := c.estimatePhiMh r.1 X
           (c.constructX r.2.2.2.2 r.2.2.2.1) alpha (fun _i _t => 2) nM nB
         some (some r.2.2.2.1, r.2.2.2.2, e.2.2.1)) := by
  refine ⟨fun i t => rfl, fun i t => rfl, fun i t => by norm_num [initPhiTau], ?_⟩
  rw [learn_run_eq]
  have hw : (fun i t : ℕ => 2 * (initPhiTau false X n_times).2 i t)
      = (fun _i _t : ℕ => (1 : ℚ)) := by
    funext i t
    norm_num [initPhiTau]
  show (let s := mcemStep c X reg alpha nO nM nB
          ⟨rng, ds, none, (initPhiTau false X n_times).1,
            (initPhiTau false X n_times).2⟩
        match s.z_hat with
        | some z => some (s.d_hat, z, s.tau)
        | none => none) = _
  unfold mcemStep
  rw [show (fun i t : ℕ =>
      2 * MCEMState.tau (R := R)
        ⟨rng, ds, none, (initPhiTau false X n_times).1,
          (initPhiTau false X n_times).2⟩ i t)
    = (fun _i _t : ℕ => (1 : ℚ)) from hw]
  rfl

/-- C6: the driver performs exactly n_iter_global iterations of the
Maximization-then-Expectation cycle, starting from the initial weights
and the warm-start dictionary, and returns the final dictionary, codes
and tau of the iterated cycle, with no convergence test beyond the
iteration count. -/
theorem claim_C6 {R : Type} (c : MCEMCollab R) (X : Tens2)
    (n_times : ℕ) (reg alpha : ℚ) (n : ℕ) (init_tau : Bool)
    (nO nM nB : ℕ) (rng : R) (ds : Option Tens2) (h : 1 ≤ n) :
    ∃ z : Tens3,
      ((mcemStep c X reg alpha nO nM nB)^[n]
          ⟨rng, ds, none, (initPhiTau init_tau X n_times).1,
            (initPhiTau init_tau X n_times).2⟩).z_hat = some z ∧
      learn_d_z_weighted c X n_times reg alpha n init_tau nO nM nB rng ds
        = some (((mcemStep c X reg alpha nO nM nB)^[n]
              ⟨rng, ds, none, (initPhiTau init_tau X n_times).1,
                (initPhiTau init_tau X n_times).2⟩).d_hat, z,
            ((mcemStep c X reg alpha nO nM nB)^[n]
              ⟨rng, ds, none, (initPhiTau init_tau X n_times).1,
                (initPhiTau init_tau X n_times).2⟩).tau) := by
  obtain ⟨m, rfl⟩ : ∃ m, n = m + 1 := ⟨n - 1, by omega⟩
  rw [learn_run_eq, Function.iterate_succ_apply']
  exact ⟨_, rfl, rfl⟩

/-- C9: with n_iter_global = 0 the loop body never runs, z_hat is never
bound, and the return statement fails instead of returning the initial
dictionary and weights; the run produces no result. -/
theorem claim_C9 {R : Type} (c : MCEMCollab R) (X : Tens2)
    (n_times : ℕ) (reg alpha : ℚ) (init_tau : Bool) (nO nM nB : ℕ)
    (rng : R) (ds : Option Tens2) :
    learn_d_z_weighted c X n_times reg alpha 0 init_tau nO nM nB rng ds
      = none := rfl

/-- C7 (amended): the driver never validates alpha; a call with alpha
outside the interval of the documentation is not rejected, and with at
least one global iteration it returns normally. -/
theorem claim_C7 {R : Type} (c : MCEMCollab R) (X : Tens2)
    (n_times : ℕ) (reg alpha : ℚ) (n : ℕ) (init_tau : Bool)
    (nO nM nB : ℕ) (rng : R) (ds : Option Tens2)
    (ha : ¬ (0 ≤ alpha ∧ alpha < 2)) (hn : 1 ≤ n) :
    (learn_d_z_weighted c X n_times reg alpha n init_tau nO nM nB
        rng ds).isSome = true :=
  learn_d_z_weighted_isSome c X n_times reg alpha n init_tau nO nM nB
    rng ds hn

/-- A concrete collaborator whose Expectation step leaks the
reconstruction into tau, so the output shows the Maximization step ran. -/
def probeCollab : MCEMCollab ℕ :=
  ⟨fun r _X _reg _nO _ds _w =>
      (r + 1, [], [], fun _ _ => 5, fun _ _ _ => 7),
    fun z d => fun i t => z 0 i t * d 0 0,
    fun r _X Xh _alpha _phi _nM _nB => (r + 1, fun _ _ => 0, Xh, [])⟩

/-- A concrete data matrix. -/
def probeX : Tens2 := fun i t => (i : ℚ) + t

/-- Counterexample to C7 as stated: at alpha = 3, which lies outside
[0, 2), the call is not rejected at call time: it runs the Maximization
step (whose product 7 * 5 = 35 is visible in the returned tau through
the Expectation step) and returns normally. -/
theorem claim_C7_counterexample :
    ¬ ((0 : ℚ) ≤ 3 ∧ (3 : ℚ) < 2) ∧
    (learn_d_z_weighted probeCollab probeX 2 (1 / 10) 3 1 false 5 4 0 0
        none).isSome = true ∧
    Option.map (fun r => r.2.2 0 0)
        (learn_d_z_weighted probeCollab probeX 2 (1 / 10) 3 1 false 5 4 0 0
          none)
      = some 35 := by
  refine ⟨by norm_num, rfl, ?_⟩
  rw [learn_run_eq]
  simp only [Function.iterate_one]
  simp only [mcemStep, probeCollab, probeX, initPhiTau]
  norm_num

/-- Witness for claim_C7 at alpha = 3 and a single global iteration. -/
theorem claim_C7_witness :
    ¬ ((0 : ℚ) ≤ 3 ∧ (3 : ℚ) < 2) ∧ 1 ≤ 1 ∧
    (learn_d_z_weighted probeCollab probeX 2 (1 / 10) 3 1 false 5 4 0 0
        none).isSome = true :=
  ⟨by norm_num, le_refl 1,
    claim_C7 probeCollab probeX 2 (1 / 10) 3 1 false 5 4 0 0 none
      (by norm_num) (le_refl 1)⟩

/-- Witness for claim_C6 at the probe collaborator and one iteration. -/
theorem claim_C6_witness :
    1 ≤ 1 ∧
    (∃ z : Tens3,
      ((mcemStep probeCollab probeX (1 / 10) 3 5 4 0)^[1]
          ⟨0, none, none, (initPhiTau false probeX 2).1,
            (initPhiTau false probeX 2).2⟩).z_hat = some z ∧
      learn_d_z_weighted probeCollab probeX 2 (1 / 10) 3 1 false 5 4 0 0
          none
        = some (((mcemStep probeCollab probeX (1 / 10) 3 5 4 0)^[1]
              ⟨0, none, none, (initPhiTau false probeX 2).1,
                (initPhiTau false probeX 2).2⟩).d_hat, z,
            ((mcemStep probeCollab probeX (1 / 10) 3 5 4 0)^[1]
              ⟨0, none, none, (initPhiTau false probeX 2).1,
                (initPhiTau false probeX 2).2⟩).tau)) :=
  ⟨le_refl 1,
    claim_C6 probeCollab probeX 2 (1 / 10) 3 1 false 5 4 0 0 none
      (le_refl 1)⟩

/-- C10: if some trial of X is constant along the time axis, the
init_tau initialization divides by zero: phi is zero at every timepoint
of that trial, the reciprocal defining tau is non-finite there, and the
weights 2 * tau built from this unguarded division are handed directly
to the first Maximization step. -/
theorem claim_C10 (X : Tens2) (n_times i : ℕ) (conc : ℚ)
    (hn : 0 < n_times) (hc : ∀ t, t < n_times → X i t = conc) :
    (∀ t, (initPhiTau true X n_times).1 i t = 0) ∧
    (∀ t, finiteRecip ((initPhiTau true X n_times).1 i t) = none) ∧
    (∀ (R : Type) (c : MCEMCollab R) (reg alpha : ℚ) (nO nM nB : ℕ)
      (rng : R) (ds : Option Tens2),
      learn_d_z_weighted c X n_times reg alpha 1 true nO nM nB rng ds
        = (let r := c.learnDZ rng X reg nO ds
             (fun i' _t' => 2 * (1 / trialStdSq X n_times i'))
           let e := c.estimatePhiMh r.1 X
             (c.constructX r.2.2.2.2 r.2.2.2.1) alpha
             (fun i' _t' => trialStdSq X n_times i') nM nB
           some (some r.2.2.2.1, r.2.2.2.2, e.2.2.1))) := by
  have hcast : (n_times : ℚ) ≠ 0 := Nat.cast_ne_zero.mpr (by omega)
  have hmean : trialMean X n_times i = conc := by
    unfold trialMean
    rw [Finset.sum_congr rfl fun t ht => hc t (Finset.mem_range.mp ht)]
    rw [Finset.sum_const, Finset.card_range, nsmul_eq_mul]
    exact mul_div_cancel_left₀ conc hcast
  have hvar : trialStdSq X n_times i = 0 := by
    unfold trialStdSq
    rw [Finset.sum_congr rfl fun t ht => by
      rw [hc t (Finset.mem_range.mp ht), hmean, sub_self]]
    simp
  have h1 : ∀ t, (initPhiTau true X n_times).1 i t = 0 := fun t => hvar
  refine ⟨h1, fun t => ?_, fun R c reg alpha nO nM nB rng ds => ?_⟩
  · rw [h1 t]
    rfl
  · rw [learn_run_eq]
    rfl

/-- A constant data matrix: every trial has zero empirical variance. -/
def constX : Tens2 := fun _i _t => 4

/-- Witness for claim_C10 on a constant signal of three timepoints. -/
theorem claim_C10_witness :
    0 < 3 ∧ (∀ t, t < 3 → constX 0 t = 4) ∧
    ((∀ t, (initPhiTau true constX 3).1 0 t = 0) ∧
      (∀ t, finiteRecip ((initPhiTau true constX 3).1 0 t) = none) ∧
      (∀ (R : Type) (c : MCEMCollab R) (reg alpha : ℚ) (nO nM nB : ℕ)
        (rng : R) (ds : Option Tens2),
        learn_d_z_weighted c constX 3 reg alpha 1 true nO nM nB rng ds
          = (let r := c.learnDZ rng constX reg nO ds
               (fun i' _t' => 2 * (1 / trialStdSq constX 3 i'))
             let e := c.estimatePhiMh r.1 constX
               (c.constructX r.2.2.2.2 r.2.2.2.1) alpha
               (fun i' _t' => trialStdSq constX 3 i') nM nB
             some (some r.2.2.2.1, r.2.2.2.2, e.2.2.1)))) :=
  ⟨by norm_num, fun t _ => rfl,
    claim_C10 constX 3 0 4 (by norm_num) (fun t _ => rfl)⟩
